import Mathlib

/-!
Shallow embedding of the core logic of `trans/models/translation.py`
(Weblate translation model): soft locking, blob-driven re-synchronization
with dependent-record cleanup, the commit pipeline, the merge algorithms
and the statistics accessors.  Externally supplied state (git repository
content, Django ORM tables, application settings) is made explicit as
function parameters and record fields.
-/

namespace Weblate

/-! ## Lock manager

Embeds `Translation.is_user_locked`, `Translation.create_lock`,
`Translation.update_lock_time` and `Translation.update_lock`
(`trans/models/translation.py` lines 208-278).  Timestamps are integers,
`datetime.now()` is passed in as `now`.  The relevant application settings
(`appsettings.LOCK_TIME`, `appsettings.AUTO_LOCK_TIME`,
`appsettings.AUTO_LOCK`) are a parameter record. -/

structure LockSettings where
  lockTime : Int
  autoLockTime : Int
  autoLock : Bool
deriving DecidableEq

structure LockState where
  lock_user : Option Nat
  lock_time : Int
deriving DecidableEq

/-- Embeds `Translation.update_lock_time(explicit, is_new)`: pick the configured
duration, compute `now + seconds`, and store it if `is_new` or it moves the
expiry forward. -/
def update_lock_time (s : LockSettings) (now : Int) (explicit is_new : Bool)
    (st : LockState) : LockState :=
  let seconds : Int := if explicit then s.lockTime else s.autoLockTime
  let new_lock_time := now + seconds
  if is_new || decide (new_lock_time > st.lock_time) then
    { st with lock_time := new_lock_time }
  else
    st

/-- Embeds `Translation.create_lock(user, explicit)`: records whether the lock is
brand new, sets the holder; clearing (user = none) resets the timestamp to
`now`, otherwise the expiry is computed by `update_lock_time`. -/
def create_lock (s : LockSettings) (now : Int) (user : Option Nat)
    (explicit : Bool) (st : LockState) : LockState :=
  let is_new := st.lock_user.isNone
  let st1 := { st with lock_user := user }
  match user with
  | none => { st1 with lock_time := now }
  | some _ => update_lock_time s now explicit is_new st1

/-- Embeds `Translation.is_user_locked(request, multi)`: returns the
`(other_user_locked, own_lock)` pair together with the possibly updated
state (an expired lock is cleared as a side effect via `create_lock(None)`).
`req` is `request.user` when a request object is supplied. -/
def is_user_locked (now : Int) (req : Option Nat) (st : LockState) :
    (Bool × Bool) × LockState :=
  match st.lock_user with
  | none => ((false, false), st)
  | some u =>
    if st.lock_time < now then
      ((false, false), { lock_user := none, lock_time := now })
    else
      match req with
      | some r => if u = r then ((false, true), st) else ((true, false), st)
      | none => ((true, false), st)

/-- Embeds `Translation.update_lock(request)` ("touch"): if any live user lock
exists, call `update_lock_time()` with its default arguments
(`explicit=False`, `is_new=True`); otherwise auto-lock for the requesting
user when `AUTO_LOCK` is enabled. -/
def update_lock (s : LockSettings) (now : Int) (reqUser : Nat)
    (st : LockState) : LockState :=
  let r := is_user_locked now none st
  if r.1.1 then
    update_lock_time s now false true r.2
  else if s.autoLock then
    create_lock s now (some reqUser) false r.2
  else
    r.2

/-! ## Database rows

The ORM tables touched by `Translation.update_from_blob`
(`trans/models/translation.py` lines 408-553).  A unit's checksum is
`msg_checksum(source, context)` (`trans.util`, external): an identity
derived from source text and context, embedded as the pair itself.
Rows carry the denormalized language/project of their translation, which
is what the queryset filters `translation__language` /
`translation__subproject__project` select on. -/

abbrev Checksum := Nat × Nat

def msg_checksum (source context : Nat) : Checksum := (source, context)

structure UnitRow where
  uid : Nat
  translation : Nat
  language : Nat
  project : Nat
  checksum : Checksum
  position : Nat
  source : Nat
  target : Nat
  fuzzy : Bool
  translated : Bool
deriving DecidableEq

structure CheckRow where
  project : Nat
  language : Option Nat
  checksum : Checksum
  check : Nat
deriving DecidableEq

structure SuggestionRow where
  project : Nat
  language : Nat
  checksum : Checksum
  target : Nat
  user : Nat
deriving DecidableEq

structure CommentRow where
  project : Nat
  language : Option Nat
  checksum : Checksum
  comment : Nat
deriving DecidableEq

structure DB where
  units : List UnitRow
  checks : List CheckRow
  suggestions : List SuggestionRow
  comments : List CommentRow
  changes : Nat
  rechecks : List Nat
  nextId : Nat
deriving DecidableEq

/-! ## Cleanup of dependent records

Embeds the loop over `deleted_checksums` in `Translation.update_from_blob`
(lines 482-530).  `unit.check()` (the re-run of the check subsystem on
surviving same-language units, external to this file's source) is recorded
in `DB.rechecks`; per the spec's check-subsystem capability it re-evaluates
checks and is the only effect of that branch. -/

/-- The queryset `Unit.objects.filter(translation__language=...,
translation__subproject__project=..., checksum=...)`. -/
def sameLangUnits (proj lang : Nat) (c : Checksum) (us : List UnitRow) :
    List UnitRow :=
  us.filter (fun u => decide (u.language = lang ∧ u.project = proj ∧ u.checksum = c))

/-- The queryset `Unit.objects.filter(translation__subproject__project=...,
checksum=...)` (any language). -/
def projUnits (proj : Nat) (c : Checksum) (us : List UnitRow) : List UnitRow :=
  us.filter (fun u => decide (u.project = proj ∧ u.checksum = c))

/-- One iteration of the cleanup loop for a deleted checksum `c`. -/
def cleanupChecksum (proj lang : Nat) (c : Checksum) (db : DB) : DB :=
  if (sameLangUnits proj lang c db.units).isEmpty then
    let db1 := { db with
      checks := db.checks.filter
        (fun k => !decide (k.project = proj ∧ k.language = some lang ∧ k.checksum = c)),
      suggestions := db.suggestions.filter
        (fun s => !decide (s.project = proj ∧ s.language = lang ∧ s.checksum = c)),
      comments := db.comments.filter
        (fun m => !decide (m.project = proj ∧ m.language = some lang ∧ m.checksum = c)) }
    if (projUnits proj c db.units).isEmpty then
      { db1 with
        comments := db1.comments.filter
          (fun m => !decide (m.project = proj ∧ m.language = none ∧ m.checksum = c)),
        checks := db1.checks.filter
          (fun k => !decide (k.project = proj ∧ k.language = none ∧ k.checksum = c)) }
    else
      db1
  else
    { db with rechecks := db.rechecks ++ (sameLangUnits proj lang c db.units).map (·.uid) }

/-- The whole cleanup pass over the list of deleted checksums. -/
def cleanupDeleted (proj lang : Nat) (cs : List Checksum) (db : DB) : DB :=
  cs.foldl (fun d c => cleanupChecksum proj lang c d) db

/-- Condition under which the cleanup pass deletes a `CheckRow`. -/
def checkDeleted (proj lang : Nat) (cs : List Checksum) (us : List UnitRow)
    (k : CheckRow) : Prop :=
  k.project = proj ∧ k.checksum ∈ cs ∧
    ((k.language = some lang ∧ sameLangUnits proj lang k.checksum us = []) ∨
     (k.language = none ∧ projUnits proj k.checksum us = []))

/-- Condition under which the cleanup pass deletes a `SuggestionRow`
(suggestions are only language-scoped; there is no source-level pass). -/
def suggestionDeleted (proj lang : Nat) (cs : List Checksum) (us : List UnitRow)
    (s : SuggestionRow) : Prop :=
  s.project = proj ∧ s.checksum ∈ cs ∧ s.language = lang ∧
    sameLangUnits proj lang s.checksum us = []

/-- Condition under which the cleanup pass deletes a `CommentRow`. -/
def commentDeleted (proj lang : Nat) (cs : List Checksum) (us : List UnitRow)
    (m : CommentRow) : Prop :=
  m.project = proj ∧ m.checksum ∈ cs ∧
    ((m.language = some lang ∧ sameLangUnits proj lang m.checksum us = []) ∨
     (m.language = none ∧ projUnits proj m.checksum us = []))

instance (proj lang : Nat) (cs : List Checksum) (us : List UnitRow) (k : CheckRow) :
    Decidable (checkDeleted proj lang cs us k) := by
  unfold checkDeleted; infer_instance

instance (proj lang : Nat) (cs : List Checksum) (us : List UnitRow) (s : SuggestionRow) :
    Decidable (suggestionDeleted proj lang cs us s) := by
  unfold suggestionDeleted; infer_instance

instance (proj lang : Nat) (cs : List Checksum) (us : List UnitRow) (m : CommentRow) :
    Decidable (commentDeleted proj lang cs us m) := by
  unfold commentDeleted; infer_instance

/-! ## Blob-driven synchronization

Embeds `Translation.update_from_blob` (lines 408-553), `update_stats`
(585-593) and `store_hash` (595-601).  The git blob hash
(`get_git_blob_hash`, a RepositoryGateway read) is the parameter
`blob_hash`, constant for the duration of one call.  The translation file
and the optional template file are lists of `FileUnit`. -/

structure TransRec where
  pk : Nat
  language : Nat
  project : Nat
  revision : String
  total : Nat
  fuzzy : Nat
  translated : Nat
deriving DecidableEq

/-- A unit record exposed by the format adapter: `getid()`/context, source
text, target text, fuzzy flag, and the `is_translatable` capability flag. -/
structure FileUnit where
  context : Nat
  source : Nat
  target : Nat
  fuzzy : Bool
  translatable : Bool
deriving DecidableEq

/-- Modelled from the spec: `is_translated` from `trans.util` (not under
src/) - a unit counts as translated when it has a nonempty target and is
not fuzzy (target `0` encodes the empty text). -/
def fileTranslated (tgt : Nat) (fz : Bool) : Bool := tgt != 0 && !fz

/-- Modelled from the spec: `Unit.objects.update_from_unit`
(`trans.models.unit`, not under src/) - upserts a Unit keyed by
(translation, checksum), refreshing position, source, target, fuzzy and
translated status, and returns the unit together with whether it was newly
created (spec section 4.2 step 5). -/
def update_from_unit (tr : TransRec) (ck : Checksum) (src tgt : Nat)
    (fz : Bool) (pos : Nat) (db : DB) : UnitRow × Bool × DB :=
  match db.units.find? (fun u => decide (u.translation = tr.pk ∧ u.checksum = ck)) with
  | some u =>
      let u' := { u with position := pos, source := src, target := tgt,
                         fuzzy := fz, translated := fileTranslated tgt fz }
      (u', false, { db with units := db.units.map (fun v => if v.uid = u.uid then u' else v) })
  | none =>
      let u' : UnitRow :=
        { uid := db.nextId, translation := tr.pk, language := tr.language,
          project := tr.project, checksum := ck, position := pos, source := src,
          target := tgt, fuzzy := fz, translated := fileTranslated tgt fz }
      (u', true, { db with units := db.units ++ [u'], nextId := db.nextId + 1 })

/-- No-template branch (lines 443-455): iterate the file's translatable
units directly; each yields (checksum, source, target, fuzzy). -/
def storeItems (store : List FileUnit) : List (Checksum × Nat × Nat × Bool) :=
  (store.filter (·.translatable)).map
    (fun fu => (msg_checksum fu.source fu.context, fu.source, fu.target, fu.fuzzy))

/-- Template branch (lines 457-470): iterate the template's translatable
units, resolving the live unit by id (`store.findid`); an absent live unit
contributes an empty, non-fuzzy target. -/
def templateItems (store tmpl : List FileUnit) : List (Checksum × Nat × Nat × Bool) :=
  (tmpl.filter (·.translatable)).map (fun tu =>
    match store.find? (fun fu => decide (fu.context = tu.context)) with
    | some fu => (msg_checksum tu.source tu.context, tu.source, fu.target, fu.fuzzy)
    | none => (msg_checksum tu.source tu.context, tu.source, 0, false))

def syncItems (store : List FileUnit) (tmpl : Option (List FileUnit)) :
    List (Checksum × Nat × Nat × Bool) :=
  match tmpl with
  | none => storeItems store
  | some t => templateItems store t

/-- The upsert loop (lines 434-470): threads `was_new`, the 1-based
position, the database and the deletion-candidate id set. -/
def syncLoop (tr : TransRec) (items : List (Checksum × Nat × Nat × Bool))
    (db : DB) (oldIds : List Nat) : Bool × DB × List Nat :=
  let r := items.foldl
    (fun (acc : Bool × Nat × DB × List Nat) it =>
      let u := update_from_unit tr it.1 it.2.1 it.2.2.1 it.2.2.2 acc.2.1 acc.2.2.1
      (acc.1 || (u.2.1 && !u.1.translated), acc.2.1 + 1, u.2.2, acc.2.2.2.erase u.1.uid))
    (false, 1, db, oldIds)
  (r.1, r.2.2.1, r.2.2.2)

/-- Embeds `Translation.update_from_blob(force, request)`: the early-return guard
(lines 417-430), the upsert loop, deletion of unmatched units, the
dependent-record cleanup, `update_stats` + `store_hash`, and the audit
`Change` entry.  Notification fan-out is fire-and-forget and carries no
state here. -/
def update_from_blob (force : Bool) (blob_hash : String) (store : List FileUnit)
    (tmpl : Option (List FileUnit)) (tr : TransRec) (db : DB) : TransRec × DB :=
  if tr.revision != blob_hash || force then
    let oldIds := (db.units.filter (fun u => decide (u.translation = tr.pk))).map (·.uid)
    let s := syncLoop tr (syncItems store tmpl) db oldIds
    let db1 := s.2.1
    let remaining := s.2.2
    let unitsToDelete := db1.units.filter
      (fun u => decide (u.translation = tr.pk ∧ u.uid ∈ remaining))
    let deletedChecksums := unitsToDelete.map (·.checksum)
    let db2 := { db1 with
      units := db1.units.filter
        (fun u => !decide (u.translation = tr.pk ∧ u.uid ∈ remaining)) }
    let db3 := cleanupDeleted tr.project tr.language deletedChecksums db2
    let myUnits := db3.units.filter (fun u => decide (u.translation = tr.pk))
    let tr' := { tr with
      total := myUnits.length,
      fuzzy := (myUnits.filter (·.fuzzy)).length,
      translated := (myUnits.filter (·.translated)).length,
      revision := blob_hash }
    (tr', { db3 with changes := db3.changes + 1 })
  else
    (tr, db)

/-! ## Commit pipeline

Embeds `Translation.git_needs_commit` (732-740), `Translation.git_commit`
(748-789) and `Translation.commit_pending` (625-637).  The repository is a
single file: `working` is the working-tree content, `head` the committed
content; `git status --porcelain` is nonempty exactly when they differ.
`fail1`/`fail2` say whether the first and second invocation of the
underlying `git commit` raise `git.GitCommandError`; every invocation is
counted in `attempts`.  A propagated exception is the `none` result.
`sleep_while_git_locked` only delays, so carries no state.  The `sync`
flag (`store_hash` after commit) updates the translation's stored
revision, which lives in the sync-engine model; here it is threaded as an
argument only. -/

structure RepoState where
  working : Nat
  head : Nat
  log : List (Nat × Nat)
  attempts : Nat
  pushes : Nat
deriving DecidableEq

def git_needs_commit (st : RepoState) : Bool := st.working != st.head

/-- Embeds `Translation.__git_commit`: commit the file with the given author. -/
def doCommit (author : Nat) (st : RepoState) : RepoState :=
  { st with head := st.working, log := st.log ++ [(author, st.working)],
            attempts := st.attempts + 1 }

/-- The push-on-commit step (`if push_on_commit and not skip_push:
do_push`, lines 786-787); `do_push` is external, counted in `pushes`. -/
def maybePush (pushOnCommit skip_push : Bool) (st : RepoState) : RepoState :=
  if pushOnCommit && !skip_push then { st with pushes := st.pushes + 1 } else st

/-- Embeds `Translation.git_commit(author, timestamp, force_commit, sync,
skip_push)`.  `lazyCommits` is `appsettings.LAZY_COMMITS`, `pushOnCommit`
is `project.push_on_commit`. -/
def git_commit (lazyCommits pushOnCommit fail1 fail2 : Bool) (author : Nat)
    (force_commit sync skip_push : Bool) (st : RepoState) :
    Option Bool × RepoState :=
  if !git_needs_commit st then (some false, st)
  else if !force_commit && lazyCommits then (some false, st)
  else if fail1 then
    let st1 := { st with attempts := st.attempts + 1 }
    if fail2 then (none, { st1 with attempts := st1.attempts + 1 })
    else (some true, maybePush pushOnCommit skip_push (doCommit author st1))
  else (some true, maybePush pushOnCommit skip_push (doCommit author st))

/-- An edit of the backing file: only the working tree changes. -/
def edit (content : Nat) (st : RepoState) : RepoState := { st with working := content }

/-- Embeds `Translation.commit_pending(author, skip_push)`.  `last` is the author
of the most recent audit entry (`get_last_author`, read from the external
`Change` table).  The second component records the
(author, force_commit, sync) arguments of the `git_commit` invocation, if
one was made. -/
def commit_pending (lazyCommits pushOnCommit fail1 fail2 : Bool)
    (author last : Option Nat) (skip_push : Bool) (st : RepoState) :
    RepoState × Option (Nat × Bool × Bool) :=
  if author = last ∨ last = none then (st, none)
  else
    match last with
    | some l =>
        ((git_commit lazyCommits pushOnCommit fail1 fail2 l true true skip_push st).2,
         some (l, true, true))
    | none => (st, none)

/-! ## Store merge

Embeds the unit loop of `Translation.merge_store` (lines 988-1037).  A
`PoUnit` is a format-adapter unit of the live file (`store1`) or of the
uploaded file (`store2`); `comments` stands for the unit's comment block,
which `merge(..., comments=False)` never copies.  Header merging
(`mergeheaders`) touches header metadata only, not the units modelled
here. -/

structure PoUnit where
  uid : Nat
  source : Nat
  target : Nat
  fuzzy : Bool
  header : Bool
  comments : Nat
deriving DecidableEq

/-- Embeds `unit.istranslated()` / `is_translated(unit)`: nonempty target and not
fuzzy (target `0` encodes the empty text). -/
def poTranslated (u : PoUnit) : Bool := u.target != 0 && !u.fuzzy

/-- Embeds `store1.findid(unit2.getid())` falling back to
`store1.findunit(unit2.source)` (lines 1009-1014), as an index. -/
def findTargetIdx (store1 : List PoUnit) (u2 : PoUnit) : Option Nat :=
  match store1.findIdx? (fun u => decide (u.uid = u2.uid)) with
  | some i => some i
  | none => store1.findIdx? (fun u => decide (u.source = u2.source))

/-- One iteration of the `merge_store` loop for an uploaded unit `u2`. -/
def merge_one (overwrite add_fuzzy : Bool) (store1 : List PoUnit)
    (u2 : PoUnit) : List PoUnit :=
  if !poTranslated u2 then store1
  else if u2.header then store1
  else
    match findTargetIdx store1 u2 with
    | none => store1
    | some i =>
      match store1[i]? with
      | none => store1
      | some u1 =>
        if !overwrite && poTranslated u1 then store1
        else store1.set i
          { u1 with target := u2.target, fuzzy := add_fuzzy || u2.fuzzy }

/-- The whole merge loop over the uploaded store's units. -/
def merge_store_units (overwrite add_fuzzy : Bool) (store1 store2 : List PoUnit) :
    List PoUnit :=
  store2.foldl (merge_one overwrite add_fuzzy) store1

/-! ## Upload dispatch

Embeds `Translation.merge_upload` (lines 1076-1117).  Parsing of the
uploaded bytes and authorship resolution are external.  The boolean
outcome of `merge_store` on each sibling (it depends on that sibling's git
state, modelled in the commit-pipeline section) is supplied as
`storeResult`; the outcome of `merge_suggestions` as
`suggestionsResult`.  The first component of the result is the trace of
merge calls made. -/

structure TransInfo where
  pk : Nat
  language : Nat
  project : Nat
  allow_propagation : Bool
deriving DecidableEq

inductive MergeCall where
  | store (pk : Nat) (addFuzzy : Bool)
  | suggestions (pk : Nat)
deriving DecidableEq

/-- The candidate queryset (lines 1092-1099): same language, same project,
then restricted to the uploaded-to translation itself or siblings whose
component allows propagation. -/
def upload_candidates (self : TransInfo) (all : List TransInfo) : List TransInfo :=
  (all.filter (fun t => decide (t.language = self.language ∧ t.project = self.project))).filter
    (fun t => decide (t.pk = self.pk ∨ t.allow_propagation = true))

def merge_upload (storeResult : Nat → Bool → Bool) (suggestionsResult : Bool)
    (self : TransInfo) (all : List TransInfo) (mode : String) :
    List MergeCall × Bool :=
  let translations := upload_candidates self all
  if mode = "" ∨ mode = "fuzzy" then
    (translations.map (fun t => MergeCall.store t.pk (mode == "fuzzy")),
     translations.foldl (fun r t => r || storeResult t.pk (mode == "fuzzy")) false)
  else
    ([MergeCall.suggestions self.pk], suggestionsResult)

/-! ## Percentage accessors

Embeds `get_fuzzy_percent` / `get_translated_percent` (lines 169-177) and
`get_failing_checks_percent` (1133-1139).  Python's `round(x, 1)` rounds
to one decimal with ties to even; arithmetic is embedded exactly over the
rationals.  `get_failing_checks` consults the external
`unit_set.count_type` capability, supplied as `failing`. -/

def roundHalfEvenInt (x : ℚ) : ℤ :=
  if x - ⌊x⌋ < 1/2 then ⌊x⌋
  else if 1/2 < x - ⌊x⌋ then ⌊x⌋ + 1
  else if ⌊x⌋ % 2 = 0 then ⌊x⌋ else ⌊x⌋ + 1

def roundTenth (x : ℚ) : ℚ := (roundHalfEvenInt (10 * x) : ℚ) / 10

def get_fuzzy_percent (tr : TransRec) : ℚ :=
  if tr.total = 0 then 0 else roundTenth ((tr.fuzzy : ℚ) * 100 / (tr.total : ℚ))

def get_translated_percent (tr : TransRec) : ℚ :=
  if tr.total = 0 then 0 else roundTenth ((tr.translated : ℚ) * 100 / (tr.total : ℚ))

def get_failing_checks_percent (failing : Nat) (tr : TransRec) : ℚ :=
  if tr.total = 0 then 0 else roundTenth ((failing : ℚ) * 100 / (tr.total : ℚ))

/-! ## Lemmas -/

/-- Whichever branch `update_from_blob` takes, the stored revision equals
the current blob hash afterwards: the body ends in `store_hash` and the
early return requires `revision == blob_hash`. -/
theorem update_from_blob_revision (force : Bool) (blob_hash : String)
    (store : List FileUnit) (tmpl : Option (List FileUnit)) (tr : TransRec)
    (db : DB) : (update_from_blob force blob_hash store tmpl tr db).1.revision = blob_hash := by
  unfold update_from_blob
  split
  · rfl
  · next h =>
      simp only [Bool.or_eq_true, bne_iff_ne, ne_eq, not_or] at h
      simpa using h.1

/-- C4: reconcile is idempotent when unforced.  After any call to
`update_from_blob`, a second call with `force = false` and an unchanged
repository blob hash is the identity on the translation and the whole
database: no unit upsert, no deletion, no stats update, no audit entry,
every unit's checksum and position unchanged. -/
theorem update_from_blob_idempotent (force : Bool) (blob_hash : String)
    (store store2 : List FileUnit) (tmpl tmpl2 : Option (List FileUnit))
    (tr : TransRec) (db : DB) :
    update_from_blob false blob_hash store2 tmpl2
        (update_from_blob force blob_hash store tmpl tr db).1
        (update_from_blob force blob_hash store tmpl tr db).2 =
      ((update_from_blob force blob_hash store tmpl tr db).1,
       (update_from_blob force blob_hash store tmpl tr db).2) := by
  have h := update_from_blob_revision force blob_hash store tmpl tr db
  rw [update_from_blob]
  simp [h]

/-- If no unit of the project references a checksum, in particular no unit
of one fixed language does. -/
theorem sameLang_nil_of_projUnits_nil (proj lang : Nat) (c : Checksum)
    (us : List UnitRow) (h : projUnits proj c us = []) :
    sameLangUnits proj lang c us = [] := by
  rw [List.eq_nil_iff_forall_not_mem]
  intro u hu
  rw [sameLangUnits, List.mem_filter, decide_eq_true_eq] at hu
  have : u ∈ projUnits proj c us := by
    rw [projUnits, List.mem_filter, decide_eq_true_eq]
    exact ⟨hu.1, hu.2.2.1, hu.2.2.2⟩
  rw [h] at this
  exact absurd this (List.not_mem_nil u)

/-- The cleanup loop never touches the unit table. -/
theorem cleanupChecksum_units (proj lang : Nat) (c : Checksum) (db : DB) :
    (cleanupChecksum proj lang c db).units = db.units := by
  unfold cleanupChecksum
  split
  · split <;> rfl
  · rfl

theorem cleanupDeleted_units (proj lang : Nat) (cs : List Checksum) (db : DB) :
    (cleanupDeleted proj lang cs db).units = db.units := by
  induction cs generalizing db with
  | nil => rfl
  | cons c cs ih =>
      have hstep : cleanupDeleted proj lang (c :: cs) db =
          cleanupDeleted proj lang cs (cleanupChecksum proj lang c db) := rfl
      rw [hstep, ih, cleanupChecksum_units]

/-- Membership in the check table after one cleanup iteration. -/
theorem cleanupChecksum_checks_mem (proj lang : Nat) (c : Checksum) (db : DB)
    (k : CheckRow) :
    k ∈ (cleanupChecksum proj lang c db).checks ↔
      k ∈ db.checks ∧ ¬ checkDeleted proj lang [c] db.units k := by
  unfold cleanupChecksum checkDeleted
  by_cases hkc : k.checksum = c
  · subst hkc
    by_cases h1 : sameLangUnits proj lang k.checksum db.units = []
    · by_cases h2 : projUnits proj k.checksum db.units = []
      · simp [h1, h2, List.mem_filter]
        tauto
      · simp [h1, h2, List.mem_filter]
        tauto
    · have h2 : ¬ projUnits proj k.checksum db.units = [] :=
        fun h => h1 (sameLang_nil_of_projUnits_nil proj lang k.checksum db.units h)
      simp [h1, h2]
  · by_cases h1 : sameLangUnits proj lang c db.units = []
    · by_cases h2 : projUnits proj c db.units = []
      · simp [h1, h2, List.mem_filter, hkc]
      · simp [h1, h2, List.mem_filter, hkc]
    · simp [h1, hkc]

/-- Membership in the suggestion table after one cleanup iteration. -/
theorem cleanupChecksum_suggestions_mem (proj lang : Nat) (c : Checksum)
    (db : DB) (s : SuggestionRow) :
    s ∈ (cleanupChecksum proj lang c db).suggestions ↔
      s ∈ db.suggestions ∧ ¬ suggestionDeleted proj lang [c] db.units s := by
  unfold cleanupChecksum suggestionDeleted
  by_cases hkc : s.checksum = c
  · subst hkc
    by_cases h1 : sameLangUnits proj lang s.checksum db.units = []
    · by_cases h2 : projUnits proj s.checksum db.units = []
      · simp [h1, h2, List.mem_filter]
        tauto
      · simp [h1, h2, List.mem_filter]
        tauto
    · simp [h1]
  · by_cases h1 : sameLangUnits proj lang c db.units = []
    · by_cases h2 : projUnits proj c db.units = [] <;>
        simp [h1, h2, List.mem_filter, hkc]
    · simp [h1, hkc]

/-- Membership in the comment table after one cleanup iteration. -/
theorem cleanupChecksum_comments_mem (proj lang : Nat) (c : Checksum)
    (db : DB) (m : CommentRow) :
    m ∈ (cleanupChecksum proj lang c db).comments ↔
      m ∈ db.comments ∧ ¬ commentDeleted proj lang [c] db.units m := by
  unfold cleanupChecksum commentDeleted
  by_cases hkc : m.checksum = c
  · subst hkc
    by_cases h1 : sameLangUnits proj lang m.checksum db.units = []
    · by_cases h2 : projUnits proj m.checksum db.units = []
      · simp [h1, h2, List.mem_filter]
        tauto
      · simp [h1, h2, List.mem_filter]
        tauto
    · have h2 : ¬ projUnits proj m.checksum db.units = [] :=
        fun h => h1 (sameLang_nil_of_projUnits_nil proj lang m.checksum db.units h)
      simp [h1, h2]
  · by_cases h1 : sameLangUnits proj lang c db.units = []
    · by_cases h2 : projUnits proj c db.units = [] <;>
        simp [h1, h2, List.mem_filter, hkc]
    · simp [h1, hkc]

theorem checkDeleted_cons (proj lang : Nat) (c : Checksum) (cs : List Checksum)
    (us : List UnitRow) (k : CheckRow) :
    checkDeleted proj lang (c :: cs) us k ↔
      checkDeleted proj lang [c] us k ∨ checkDeleted proj lang cs us k := by
  unfold checkDeleted
  simp only [List.mem_cons, List.mem_singleton, List.not_mem_nil, or_false]
  tauto

theorem suggestionDeleted_cons (proj lang : Nat) (c : Checksum)
    (cs : List Checksum) (us : List UnitRow) (s : SuggestionRow) :
    suggestionDeleted proj lang (c :: cs) us s ↔
      suggestionDeleted proj lang [c] us s ∨ suggestionDeleted proj lang cs us s := by
  unfold suggestionDeleted
  simp only [List.mem_cons, List.mem_singleton, List.not_mem_nil, or_false]
  tauto

theorem commentDeleted_cons (proj lang : Nat) (c : Checksum)
    (cs : List Checksum) (us : List UnitRow) (m : CommentRow) :
    commentDeleted proj lang (c :: cs) us m ↔
      commentDeleted proj lang [c] us m ∨ commentDeleted proj lang cs us m := by
  unfold commentDeleted
  simp only [List.mem_cons, List.mem_singleton, List.not_mem_nil, or_false]
  tauto

/-- Full characterization of the check table after the cleanup pass. -/
theorem cleanupDeleted_checks_mem (proj lang : Nat) (cs : List Checksum)
    (db : DB) (k : CheckRow) :
    k ∈ (cleanupDeleted proj lang cs db).checks ↔
      k ∈ db.checks ∧ ¬ checkDeleted proj lang cs db.units k := by
  induction cs generalizing db with
  | nil =>
      unfold cleanupDeleted checkDeleted
      simp
  | cons c cs ih =>
      have hstep : cleanupDeleted proj lang (c :: cs) db =
          cleanupDeleted proj lang cs (cleanupChecksum proj lang c db) := rfl
      rw [hstep, ih, cleanupChecksum_units, cleanupChecksum_checks_mem]
      have hsplit := checkDeleted_cons proj lang c cs db.units k
      tauto

/-- Full characterization of the suggestion table after the cleanup pass. -/
theorem cleanupDeleted_suggestions_mem (proj lang : Nat) (cs : List Checksum)
    (db : DB) (s : SuggestionRow) :
    s ∈ (cleanupDeleted proj lang cs db).suggestions ↔
      s ∈ db.suggestions ∧ ¬ suggestionDeleted proj lang cs db.units s := by
  induction cs generalizing db with
  | nil =>
      unfold cleanupDeleted suggestionDeleted
      simp
  | cons c cs ih =>
      have hstep : cleanupDeleted proj lang (c :: cs) db =
          cleanupDeleted proj lang cs (cleanupChecksum proj lang c db) := rfl
      rw [hstep, ih, cleanupChecksum_units, cleanupChecksum_suggestions_mem]
      have hsplit := suggestionDeleted_cons proj lang c cs db.units s
      tauto

/-- Full characterization of the comment table after the cleanup pass. -/
theorem cleanupDeleted_comments_mem (proj lang : Nat) (cs : List Checksum)
    (db : DB) (m : CommentRow) :
    m ∈ (cleanupDeleted proj lang cs db).comments ↔
      m ∈ db.comments ∧ ¬ commentDeleted proj lang cs db.units m := by
  induction cs generalizing db with
  | nil =>
      unfold cleanupDeleted commentDeleted
      simp
  | cons c cs ih =>
      have hstep : cleanupDeleted proj lang (c :: cs) db =
          cleanupDeleted proj lang cs (cleanupChecksum proj lang c db) := rfl
      rw [hstep, ih, cleanupChecksum_units, cleanupChecksum_comments_mem]
      have hsplit := commentDeleted_cons proj lang c cs db.units m
      tauto

/-- C2 counterexample: the claim's deletion condition ("deleted
exactly when no Unit in any language of the same project still references
that checksum") is false.  Project 0, translation language 0: a deleted
unit had checksum (7,7); a sibling-language unit (language 1, same
project) still references (7,7), yet the project-scoped check row for
language 0 is deleted, because the code only queries units of the
translation's own language for that branch. -/
theorem cleanup_deletes_lang_row_despite_sibling_reference :
    (∃ u ∈ (⟨[⟨5, 9, 1, 0, (7, 7), 1, 7, 3, false, true⟩],
        [⟨0, some 0, (7, 7), 0⟩], [], [], 0, [], 10⟩ : DB).units,
      u.project = 0 ∧ u.checksum = (7, 7)) ∧
    (⟨0, some 0, (7, 7), 0⟩ : CheckRow) ∈
      (⟨[⟨5, 9, 1, 0, (7, 7), 1, 7, 3, false, true⟩],
        [⟨0, some 0, (7, 7), 0⟩], [], [], 0, [], 10⟩ : DB).checks ∧
    (⟨0, some 0, (7, 7), 0⟩ : CheckRow) ∉
      (cleanupDeleted 0 0 [(7, 7)]
        ⟨[⟨5, 9, 1, 0, (7, 7), 1, 7, 3, false, true⟩],
          [⟨0, some 0, (7, 7), 0⟩], [], [], 0, [], 10⟩).checks := by
  refine ⟨⟨⟨5, 9, 1, 0, (7, 7), 1, 7, 3, false, true⟩, by decide, by decide⟩, by decide, by decide⟩

/-- C2 amended: during the cleanup pass of `update_from_blob` over the
deleted checksums, a row survives exactly when it was present before and
its deletion condition fails, where the project-scoped rows (checks,
suggestions, comments keyed by the translation's language) of a deleted
checksum are deleted exactly when no Unit of the translation's *own
language* within the project still references that checksum, and the
source-level (language = none) comments and checks are deleted exactly
when no Unit in *any* language of the project references it. -/
theorem cleanup_deletion_characterization (proj lang : Nat)
    (cs : List Checksum) (db : DB) :
    (∀ k : CheckRow, k ∈ (cleanupDeleted proj lang cs db).checks ↔
        k ∈ db.checks ∧ ¬ checkDeleted proj lang cs db.units k) ∧
    (∀ s : SuggestionRow, s ∈ (cleanupDeleted proj lang cs db).suggestions ↔
        s ∈ db.suggestions ∧ ¬ suggestionDeleted proj lang cs db.units s) ∧
    (∀ m : CommentRow, m ∈ (cleanupDeleted proj lang cs db).comments ↔
        m ∈ db.comments ∧ ¬ commentDeleted proj lang cs db.units m) :=
  ⟨fun k => cleanupDeleted_checks_mem proj lang cs db k,
   fun s => cleanupDeleted_suggestions_mem proj lang cs db s,
   fun m => cleanupDeleted_comments_mem proj lang cs db m⟩

/-- C3: if a deleted unit with checksum `c` was the last unit
referencing `c` for the translation's language within the project, the
cleanup pass removes every project-scoped check, suggestion and comment
row for `c` and that language; and if a sibling-language unit of the
project still references `c`, every source-level (language = none)
comment and check row for `c` survives. -/
theorem last_referent_cleanup (proj lang : Nat) (cs : List Checksum)
    (db : DB) (c : Checksum) (hc : c ∈ cs)
    (hlast : sameLangUnits proj lang c db.units = []) :
    (∀ k : CheckRow, k.project = proj → k.language = some lang →
        k.checksum = c → k ∉ (cleanupDeleted proj lang cs db).checks) ∧
    (∀ s : SuggestionRow, s.project = proj → s.language = lang →
        s.checksum = c → s ∉ (cleanupDeleted proj lang cs db).suggestions) ∧
    (∀ m : CommentRow, m.project = proj → m.language = some lang →
        m.checksum = c → m ∉ (cleanupDeleted proj lang cs db).comments) ∧
    ((∃ u ∈ db.units, u.project = proj ∧ u.language ≠ lang ∧ u.checksum = c) →
      (∀ m : CommentRow, m.project = proj → m.language = none →
          m.checksum = c → m ∈ db.comments →
          m ∈ (cleanupDeleted proj lang cs db).comments) ∧
      (∀ k : CheckRow, k.project = proj → k.language = none →
          k.checksum = c → k ∈ db.checks →
          k ∈ (cleanupDeleted proj lang cs db).checks)) := by
  refine ⟨?_, ?_, ?_, ?_⟩
  · intro k hp hl hck
    rw [cleanupDeleted_checks_mem]
    rintro ⟨-, hnd⟩
    exact hnd ⟨hp, by rw [hck]; exact hc, Or.inl ⟨hl, by rw [hck]; exact hlast⟩⟩
  · intro s hp hl hck
    rw [cleanupDeleted_suggestions_mem]
    rintro ⟨-, hnd⟩
    exact hnd ⟨hp, by rw [hck]; exact hc, hl, by rw [hck]; exact hlast⟩
  · intro m hp hl hck
    rw [cleanupDeleted_comments_mem]
    rintro ⟨-, hnd⟩
    exact hnd ⟨hp, by rw [hck]; exact hc, Or.inl ⟨hl, by rw [hck]; exact hlast⟩⟩
  · rintro ⟨u, hu, hup, -, huc⟩
    have hne : projUnits proj c db.units ≠ [] := by
      apply List.ne_nil_of_mem (a := u)
      rw [projUnits, List.mem_filter, decide_eq_true_eq]
      exact ⟨hu, hup, huc⟩
    constructor
    · intro m hp hl hck hmem
      rw [cleanupDeleted_comments_mem]
      refine ⟨hmem, ?_⟩
      rintro ⟨-, -, hdel⟩
      rcases hdel with ⟨hsome, -⟩ | ⟨-, hempty⟩
      · rw [hl] at hsome
        exact Option.noConfusion hsome
      · rw [hck] at hempty
        exact hne hempty
    · intro k hp hl hck hmem
      rw [cleanupDeleted_checks_mem]
      refine ⟨hmem, ?_⟩
      rintro ⟨-, -, hdel⟩
      rcases hdel with ⟨hsome, -⟩ | ⟨-, hempty⟩
      · rw [hl] at hsome
        exact Option.noConfusion hsome
      · rw [hck] at hempty
        exact hne hempty

/-- Witness for C3 on concrete data: project 0, language 0, checksum
(7,7) deleted, only a sibling-language unit (language 1) left.  The
language-scoped check, suggestion and comment rows are gone, the
source-level comment and check rows survive. -/
theorem last_referent_cleanup_witness :
    (⟨0, some 0, (7, 7), 0⟩ : CheckRow) ∉
      (cleanupDeleted 0 0 [(7, 7)]
        ⟨[⟨5, 9, 1, 0, (7, 7), 1, 7, 3, false, true⟩],
          [⟨0, some 0, (7, 7), 0⟩, ⟨0, none, (7, 7), 1⟩],
          [⟨0, 0, (7, 7), 1, 2⟩],
          [⟨0, some 0, (7, 7), 3⟩, ⟨0, none, (7, 7), 4⟩], 0, [], 10⟩).checks ∧
    (⟨0, 0, (7, 7), 1, 2⟩ : SuggestionRow) ∉
      (cleanupDeleted 0 0 [(7, 7)]
        ⟨[⟨5, 9, 1, 0, (7, 7), 1, 7, 3, false, true⟩],
          [⟨0, some 0, (7, 7), 0⟩, ⟨0, none, (7, 7), 1⟩],
          [⟨0, 0, (7, 7), 1, 2⟩],
          [⟨0, some 0, (7, 7), 3⟩, ⟨0, none, (7, 7), 4⟩], 0, [], 10⟩).suggestions ∧
    (⟨0, some 0, (7, 7), 3⟩ : CommentRow) ∉
      (cleanupDeleted 0 0 [(7, 7)]
        ⟨[⟨5, 9, 1, 0, (7, 7), 1, 7, 3, false, true⟩],
          [⟨0, some 0, (7, 7), 0⟩, ⟨0, none, (7, 7), 1⟩],
          [⟨0, 0, (7, 7), 1, 2⟩],
          [⟨0, some 0, (7, 7), 3⟩, ⟨0, none, (7, 7), 4⟩], 0, [], 10⟩).comments ∧
    (⟨0, none, (7, 7), 4⟩ : CommentRow) ∈
      (cleanupDeleted 0 0 [(7, 7)]
        ⟨[⟨5, 9, 1, 0, (7, 7), 1, 7, 3, false, true⟩],
          [⟨0, some 0, (7, 7), 0⟩, ⟨0, none, (7, 7), 1⟩],
          [⟨0, 0, (7, 7), 1, 2⟩],
          [⟨0, some 0, (7, 7), 3⟩, ⟨0, none, (7, 7), 4⟩], 0, [], 10⟩).comments ∧
    (⟨0, none, (7, 7), 1⟩ : CheckRow) ∈
      (cleanupDeleted 0 0 [(7, 7)]
        ⟨[⟨5, 9, 1, 0, (7, 7), 1, 7, 3, false, true⟩],
          [⟨0, some 0, (7, 7), 0⟩, ⟨0, none, (7, 7), 1⟩],
          [⟨0, 0, (7, 7), 1, 2⟩],
          [⟨0, some 0, (7, 7), 3⟩, ⟨0, none, (7, 7), 4⟩], 0, [], 10⟩).checks := by
  have h := last_referent_cleanup 0 0 [(7, 7)]
    ⟨[⟨5, 9, 1, 0, (7, 7), 1, 7, 3, false, true⟩],
      [⟨0, some 0, (7, 7), 0⟩, ⟨0, none, (7, 7), 1⟩],
      [⟨0, 0, (7, 7), 1, 2⟩],
      [⟨0, some 0, (7, 7), 3⟩, ⟨0, none, (7, 7), 4⟩], 0, [], 10⟩ (7, 7)
    (by decide) (by decide)
  have hsib := h.2.2.2
    ⟨⟨5, 9, 1, 0, (7, 7), 1, 7, 3, false, true⟩, by decide, by decide⟩
  exact ⟨h.1 _ rfl rfl rfl, h.2.1 _ rfl rfl rfl, h.2.2.1 _ rfl rfl rfl,
    hsib.1 _ rfl rfl rfl (by decide), hsib.2 _ rfl rfl rfl (by decide)⟩

/-- C1: evaluation of the lock model at the failing input.  With
`LOCK_TIME = 600`, `AUTO_LOCK_TIME = 60`, user 1 acquires an explicit lock
at time 0 (expiry 600) and touches it via `update_lock` at time 10 while
it is still their own live lock; the expiry drops to 70.  `update_lock`
calls `update_lock_time()` with the default `is_new=True`, which bypasses
the guard that only moves the expiry forward. -/
theorem touch_shortens_explicit_lock :
    (create_lock ⟨600, 60, true⟩ 0 (some 1) true ⟨none, 0⟩).lock_time = 600 ∧
    (is_user_locked 10 (some 1)
        (create_lock ⟨600, 60, true⟩ 0 (some 1) true ⟨none, 0⟩)).1 = (false, true) ∧
    (update_lock ⟨600, 60, true⟩ 10 1
        (create_lock ⟨600, 60, true⟩ 0 (some 1) true ⟨none, 0⟩)).lock_time = 70 ∧
    (update_lock ⟨600, 60, true⟩ 10 1
        (create_lock ⟨600, 60, true⟩ 0 (some 1) true ⟨none, 0⟩)).lock_time <
      (create_lock ⟨600, 60, true⟩ 0 (some 1) true ⟨none, 0⟩).lock_time := by
  refine ⟨rfl, rfl, rfl, by decide⟩

theorem maybePush_log (b1 b2 : Bool) (st : RepoState) :
    (maybePush b1 b2 st).log = st.log := by
  unfold maybePush
  split <;> rfl

theorem maybePush_head (b1 b2 : Bool) (st : RepoState) :
    (maybePush b1 b2 st).head = st.head := by
  unfold maybePush
  split <;> rfl

theorem maybePush_working (b1 b2 : Bool) (st : RepoState) :
    (maybePush b1 b2 st).working = st.working := by
  unfold maybePush
  split <;> rfl

theorem maybePush_attempts (b1 b2 : Bool) (st : RepoState) :
    (maybePush b1 b2 st).attempts = st.attempts := by
  unfold maybePush
  split <;> rfl

/-- Folding `ret |= f(t)` over a list is the big OR of the results. -/
theorem foldl_or_eq_any {α : Type} (f : α → Bool) (l : List α) (b : Bool) :
    l.foldl (fun r t => r || f t) b = (b || l.any f) := by
  induction l generalizing b with
  | nil => simp
  | cons t l ih => rw [List.foldl_cons, ih (b || f t), List.any_cons, Bool.or_assoc]

/-- C5: `merge_upload` dispatches on `method` in exactly two branches.
The candidate set is: same language, same project, the uploaded-to
translation itself or siblings allowing propagation.  For `method` empty
or `"fuzzy"` it calls `merge_store` on every candidate with `add_fuzzy`
true exactly when `method = "fuzzy"` and returns the OR of the per-sibling
results; for any other `method` it calls `merge_suggestions` on the
originating translation only and returns its result. -/
theorem merge_upload_dispatch (storeResult : Nat → Bool → Bool)
    (suggestionsResult : Bool) (self : TransInfo) (all : List TransInfo)
    (mode : String) :
    (∀ t : TransInfo, t ∈ upload_candidates self all ↔
        t ∈ all ∧ t.language = self.language ∧ t.project = self.project ∧
          (t.pk = self.pk ∨ t.allow_propagation = true)) ∧
    (merge_upload storeResult suggestionsResult self all mode).1 =
      (if mode = "" ∨ mode = "fuzzy" then
        (upload_candidates self all).map
          (fun t => MergeCall.store t.pk (mode == "fuzzy"))
      else [MergeCall.suggestions self.pk]) ∧
    (merge_upload storeResult suggestionsResult self all mode).2 =
      (if mode = "" ∨ mode = "fuzzy" then
        (upload_candidates self all).any
          (fun t => storeResult t.pk (mode == "fuzzy"))
      else suggestionsResult) := by
  refine ⟨?_, ?_, ?_⟩
  · intro t
    unfold upload_candidates
    simp only [List.mem_filter, decide_eq_true_eq]
    tauto
  · by_cases hm : mode = "" ∨ mode = "fuzzy" <;> simp [merge_upload, hm]
  · by_cases hm : mode = "" ∨ mode = "fuzzy" <;>
      simp [merge_upload, hm, foldl_or_eq_any]

/-- C8: the overwrite policy of the `merge_store` loop for a translated
uploaded unit whose counterpart in the live file is found and is already
translated: `overwrite = false` leaves the file unchanged; `overwrite =
true` replaces the counterpart's target and fuzzy state by the uploaded
unit's, forcing fuzzy when `add_fuzzy` is set, and never copies comments
(the counterpart keeps its own `comments`). -/
theorem merge_one_overwrite_policy (add_fuzzy : Bool) (store1 : List PoUnit)
    (u2 u1 : PoUnit) (i : Nat) (ht : poTranslated u2 = true)
    (hh : u2.header = false) (hf : findTargetIdx store1 u2 = some i)
    (hg : store1[i]? = some u1) (h1 : poTranslated u1 = true) :
    merge_one false add_fuzzy store1 u2 = store1 ∧
    merge_one true add_fuzzy store1 u2 =
      store1.set i { u1 with target := u2.target, fuzzy := add_fuzzy || u2.fuzzy } ∧
    ({ u1 with target := u2.target, fuzzy := add_fuzzy || u2.fuzzy } : PoUnit).comments
      = u1.comments := by
  refine ⟨?_, ?_, rfl⟩ <;> simp [merge_one, ht, hh, hf, hg, h1]

/-- Witness for C8: a live file with one translated unit, an uploaded
translated unit with the same id; skipped without overwrite, replaced
(keeping its comment block, forced fuzzy) with overwrite and
`add_fuzzy`. -/
theorem merge_one_overwrite_policy_witness :
    merge_one false true [⟨1, 10, 5, false, false, 99⟩] ⟨1, 10, 8, false, false, 42⟩ =
      [⟨1, 10, 5, false, false, 99⟩] ∧
    merge_one true true [⟨1, 10, 5, false, false, 99⟩] ⟨1, 10, 8, false, false, 42⟩ =
      [⟨1, 10, 8, true, false, 99⟩] := by
  have h := merge_one_overwrite_policy true [⟨1, 10, 5, false, false, 99⟩]
    ⟨1, 10, 8, false, false, 42⟩ ⟨1, 10, 5, false, false, 99⟩ 0
    (by decide) (by decide) (by decide) (by decide) (by decide)
  exact ⟨h.1, h.2.1⟩

/-- A lazy, unforced commit attempt after an edit leaves the repository
state exactly at the edited state (the change stays in the working
tree). -/
theorem lazy_commit_noop (p : Bool) (author : Nat) (sync skipPush : Bool)
    (st : RepoState) (c : Nat) :
    (git_commit true p false false author false sync skipPush (edit c st)).2 =
      edit c st := by
  cases h : git_needs_commit (edit c st) <;> simp [git_commit, h]

/-- Folding edits each followed by a lazy, unforced commit just moves the
working tree to the last edit. -/
theorem lazy_edit_fold (p : Bool) (author : Nat) (sync skipPush : Bool)
    (st : RepoState) (edits : List Nat) :
    edits.foldl (fun s c =>
        (git_commit true p false false author false sync skipPush (edit c s)).2) st =
      { st with working := edits.getLastD st.working } := by
  induction edits generalizing st with
  | nil => rfl
  | cons c cs ih =>
      rw [List.foldl_cons, lazy_commit_noop, ih, List.getLastD_cons]
      rfl

/-- C6: without transient failures, `git_commit` returns `false` (and
changes nothing) exactly when the file is clean or `force_commit` is off
with lazy commits configured; otherwise it returns `true` and appends
exactly one commit of the working tree.  Consequently, with lazy commits
enabled, any sequence of edits followed by unforced commit calls produces
zero commits, and a final forced call produces exactly one commit
capturing the accumulated state of the edits. -/
theorem git_commit_gating (lazy p : Bool) (author : Nat)
    (force sync skipPush : Bool) (st : RepoState) :
    ((git_commit lazy p false false author force sync skipPush st).1 =
      some (git_needs_commit st && (force || !lazy))) ∧
    ((git_needs_commit st && (force || !lazy)) = false →
      (git_commit lazy p false false author force sync skipPush st).2 = st) ∧
    ((git_needs_commit st && (force || !lazy)) = true →
      (git_commit lazy p false false author force sync skipPush st).2.log =
        st.log ++ [(author, st.working)] ∧
      (git_commit lazy p false false author force sync skipPush st).2.head =
        st.working) ∧
    (∀ edits : List Nat,
      (edits.foldl (fun s c =>
          (git_commit true p false false author false sync skipPush (edit c s)).2)
        st).log = st.log) ∧
    (∀ edits : List Nat, edits.getLastD st.working ≠ st.head →
      (git_commit true p false false author true sync skipPush
        (edits.foldl (fun s c =>
            (git_commit true p false false author false sync skipPush (edit c s)).2)
          st)).1 = some true ∧
      (git_commit true p false false author true sync skipPush
        (edits.foldl (fun s c =>
            (git_commit true p false false author false sync skipPush (edit c s)).2)
          st)).2.log = st.log ++ [(author, edits.getLastD st.working)]) := by
  refine ⟨?_, ?_, ?_, ?_, ?_⟩
  · cases hd : git_needs_commit st <;> cases force <;> cases lazy <;>
      simp [git_commit, hd]
  · intro h
    cases hd : git_needs_commit st <;> cases force <;> cases lazy <;>
      simp_all [git_commit]
  · intro h
    cases hd : git_needs_commit st <;> cases force <;> cases lazy <;>
      simp_all [git_commit, doCommit, maybePush_log, maybePush_head]
  · intro edits
    rw [lazy_edit_fold]
  · intro edits hne
    rw [lazy_edit_fold]
    set L := edits.getLastD st.working with hL
    have hd : git_needs_commit { st with working := L } = true := by
      simpa [git_needs_commit, bne_iff_ne] using hne
    simp [git_commit, hd, doCommit, maybePush_log]

/-- Witness for C6 at a dirty repository (working 3, head 1): a forced
lazy-mode commit logs the working tree, an unforced one changes nothing,
and after edits 5 then 4 under lazy mode the forced commit logs exactly
the accumulated content 4. -/
theorem git_commit_gating_witness :
    (git_commit true false false false 7 true false false ⟨3, 1, [], 0, 0⟩).2.log =
      [] ++ [(7, 3)] ∧
    (git_commit true false false false 7 false false false ⟨3, 1, [], 0, 0⟩).2 =
      ⟨3, 1, [], 0, 0⟩ ∧
    (git_commit true false false false 7 true false false
      ([5, 4].foldl (fun s c =>
          (git_commit true false false false 7 false false false (edit c s)).2)
        ⟨3, 1, [], 0, 0⟩)).2.log = [] ++ [(7, 4)] := by
  have h1 := git_commit_gating true false 7 true false false ⟨3, 1, [], 0, 0⟩
  have h2 := git_commit_gating true false 7 false false false ⟨3, 1, [], 0, 0⟩
  exact ⟨(h1.2.2.1 (by decide)).1, h2.2.1 (by decide),
    (h1.2.2.2.2 [5, 4] (by decide)).2⟩

/-- C7: `commit_pending` invokes a forced, synced commit attributed to
the author of the most recent audit entry exactly when that author is
non-null and differs from the supplied author; otherwise it returns with
the state untouched and no commit invocation. -/
theorem commit_pending_dispatch (lazy p f1 f2 : Bool) (author last : Option Nat)
    (skipPush : Bool) (st : RepoState) :
    (∀ l : Nat, (commit_pending lazy p f1 f2 author last skipPush st).2 =
        some (l, true, true) ↔ (last = some l ∧ author ≠ some l)) ∧
    (author = last ∨ last = none →
      commit_pending lazy p f1 f2 author last skipPush st = (st, none)) ∧
    (∀ l : Nat, last = some l → author ≠ some l →
      (commit_pending lazy p f1 f2 author last skipPush st).1 =
        (git_commit lazy p f1 f2 l true true skipPush st).2) := by
  cases last with
  | none =>
      refine ⟨?_, ?_, ?_⟩
      · intro l
        simp [commit_pending]
      · intro h
        simp [commit_pending]
      · intro l hl
        exact absurd hl (by simp)
  | some l0 =>
      by_cases ha : author = some l0
      · refine ⟨?_, ?_, ?_⟩
        · intro l
          simp only [commit_pending, if_pos (Or.inl ha)]
          constructor
          · intro hcontra
            exact absurd hcontra (by simp)
          · rintro ⟨h1, h2⟩
            exact absurd (ha.trans h1) h2
        · intro h
          simp [commit_pending, ha]
        · intro l hl hne
          exact absurd (ha.trans hl) hne
      · have hcond : ¬ (author = some l0 ∨ (some l0 : Option Nat) = none) := by
          rintro (h | h)
          · exact ha h
          · exact Option.noConfusion h
        refine ⟨?_, ?_, ?_⟩
        · intro l
          simp only [commit_pending, if_neg hcond, Option.some.injEq,
            Prod.mk.injEq, and_true, and_self]
          constructor
          · intro h1
            exact ⟨h1, fun hc => ha (hc.trans (congrArg some h1.symm))⟩
          · exact fun h => h.1
        · intro h
          exact absurd h hcond
        · intro l hl hne
          have h2 : l0 = l := Option.some.inj hl
          subst h2
          simp [commit_pending, if_neg hcond, ha]

/-- Witness for C7: with a pending change (working 3, head 1), a matching
author causes no commit, a differing author triggers the forced, synced
commit attributed to the last audit author 7. -/
theorem commit_pending_dispatch_witness :
    commit_pending false false false false (some 7) (some 7) false ⟨3, 1, [], 0, 0⟩ =
      (⟨3, 1, [], 0, 0⟩, none) ∧
    (commit_pending false false false false (some 8) (some 7) false ⟨3, 1, [], 0, 0⟩).2 =
      some (7, true, true) := by
  have h1 := commit_pending_dispatch false false false false (some 7) (some 7)
    false ⟨3, 1, [], 0, 0⟩
  have h2 := commit_pending_dispatch false false false false (some 8) (some 7)
    false ⟨3, 1, [], 0, 0⟩
  exact ⟨h1.2.1 (Or.inl rfl), (h2.1 7).mpr ⟨rfl, by decide⟩⟩

/-- C9: when a commit is due (dirty file, not deferred) and the
underlying git commit raises a transient error, exactly one retry happens
after the sleep: a successful retry yields `some true` with the same log
and head as an immediately successful commit (only the attempt count
differs), and a failing retry propagates the error with no commit and no
further attempts (exactly two attempts in total). -/
theorem git_commit_retry (lazy p : Bool) (author : Nat)
    (force sync skipPush : Bool) (st : RepoState)
    (hdirty : git_needs_commit st = true) (hforce : (force || !lazy) = true) :
    ((git_commit lazy p true false author force sync skipPush st).1 = some true ∧
     (git_commit lazy p true false author force sync skipPush st).2.log =
       st.log ++ [(author, st.working)] ∧
     (git_commit lazy p true false author force sync skipPush st).2.head =
       st.working ∧
     (git_commit lazy p true false author force sync skipPush st).2.attempts =
       st.attempts + 2) ∧
    ((git_commit lazy p true false author force sync skipPush st).1 =
       (git_commit lazy p false false author force sync skipPush st).1 ∧
     (git_commit lazy p true false author force sync skipPush st).2.log =
       (git_commit lazy p false false author force sync skipPush st).2.log ∧
     (git_commit lazy p true false author force sync skipPush st).2.head =
       (git_commit lazy p false false author force sync skipPush st).2.head) ∧
    git_commit lazy p true true author force sync skipPush st =
      (none, { st with attempts := st.attempts + 2 }) := by
  have hlz : (!force && lazy) = false := by
    cases force <;> cases lazy <;> simp_all
  simp [git_commit, hdirty, hlz, doCommit, maybePush_log, maybePush_head,
    maybePush_attempts]

/-- Witness for C9 at a dirty repository (working 3, head 1) with a forced
commit: a failed first attempt plus successful retry commits and reports
two attempts; two failures propagate the error with no commit. -/
theorem git_commit_retry_witness :
    (git_commit false false true false 7 true false false ⟨3, 1, [], 0, 0⟩).1 =
      some true ∧
    (git_commit false false true false 7 true false false ⟨3, 1, [], 0, 0⟩).2.attempts = 2 ∧
    git_commit false false true true 7 true false false ⟨3, 1, [], 0, 0⟩ =
      (none, ⟨3, 1, [], 2, 0⟩) := by
  have h := git_commit_retry false false 7 true false false ⟨3, 1, [], 0, 0⟩
    (by decide) (by decide)
  exact ⟨h.1.1, h.1.2.2.2, h.2.2⟩

/-- The half-even integer rounding is within 1/2 of its argument. -/
theorem roundHalfEvenInt_abs (x : ℚ) :
    |((roundHalfEvenInt x : ℤ) : ℚ) - x| ≤ 1 / 2 := by
  have h1 : (⌊x⌋ : ℚ) ≤ x := Int.floor_le x
  have h2 : x < ⌊x⌋ + 1 := Int.lt_floor_add_one x
  unfold roundHalfEvenInt
  split_ifs with ha hb hc <;>
    · rw [abs_le]
      constructor <;> push_cast <;> linarith

/-- The function `roundTenth` is within 1/20 of its argument. -/
theorem roundTenth_abs (q : ℚ) : |roundTenth q - q| ≤ 1 / 20 := by
  have h := roundHalfEvenInt_abs (10 * q)
  rw [roundTenth]
  have hq : (roundHalfEvenInt (10 * q) : ℚ) / 10 - q =
      ((roundHalfEvenInt (10 * q) : ℚ) - 10 * q) / 10 := by ring
  rw [hq, abs_div]
  have h10 : |(10 : ℚ)| = 10 := by norm_num
  rw [h10]
  linarith

/-- The function `roundTenth` lands on a multiple of one tenth. -/
theorem roundTenth_tenth (q : ℚ) : ∃ n : ℤ, roundTenth q * 10 = n := by
  refine ⟨roundHalfEvenInt (10 * q), ?_⟩
  rw [roundTenth]
  field_simp

/-- C10: for `total = 0` the three percentage accessors return `0`
(no division by zero); for `total > 0` they return the count times 100
divided by total, rounded to one decimal place: the result is a multiple
of one tenth within 1/20 of the exact ratio. -/
theorem percent_accessors (tr : TransRec) (failing : Nat) :
    (tr.total = 0 → get_fuzzy_percent tr = 0 ∧ get_translated_percent tr = 0 ∧
        get_failing_checks_percent failing tr = 0) ∧
    (tr.total ≠ 0 →
      (|get_fuzzy_percent tr - (tr.fuzzy : ℚ) * 100 / (tr.total : ℚ)| ≤ 1 / 20 ∧
        ∃ n : ℤ, get_fuzzy_percent tr * 10 = n) ∧
      (|get_translated_percent tr - (tr.translated : ℚ) * 100 / (tr.total : ℚ)| ≤ 1 / 20 ∧
        ∃ n : ℤ, get_translated_percent tr * 10 = n) ∧
      (|get_failing_checks_percent failing tr - (failing : ℚ) * 100 / (tr.total : ℚ)| ≤ 1 / 20 ∧
        ∃ n : ℤ, get_failing_checks_percent failing tr * 10 = n)) := by
  constructor
  · intro h
    simp [get_fuzzy_percent, get_translated_percent, get_failing_checks_percent, h]
  · intro h
    rw [get_fuzzy_percent, get_translated_percent, get_failing_checks_percent,
      if_neg h, if_neg h, if_neg h]
    exact ⟨⟨roundTenth_abs _, roundTenth_tenth _⟩,
      ⟨roundTenth_abs _, roundTenth_tenth _⟩,
      ⟨roundTenth_abs _, roundTenth_tenth _⟩⟩

/-- Witness for C10: with `total = 0` all three accessors return 0; with
`total = 4`, `fuzzy = 1` the fuzzy percentage is a tenth-multiple within
1/20 of 25. -/
theorem percent_accessors_witness :
    (get_fuzzy_percent ⟨0, 0, 0, "", 0, 3, 2⟩ = 0 ∧
     get_translated_percent ⟨0, 0, 0, "", 0, 3, 2⟩ = 0 ∧
     get_failing_checks_percent 5 ⟨0, 0, 0, "", 0, 3, 2⟩ = 0) ∧
    (|get_fuzzy_percent ⟨0, 0, 0, "", 4, 1, 2⟩ -
        ((1 : ℕ) : ℚ) * 100 / ((4 : ℕ) : ℚ)| ≤ 1 / 20 ∧
      ∃ n : ℤ, get_fuzzy_percent ⟨0, 0, 0, "", 4, 1, 2⟩ * 10 = n) := by
  refine ⟨(percent_accessors ⟨0, 0, 0, "", 0, 3, 2⟩ 5).1 rfl, ?_⟩
  exact ((percent_accessors ⟨0, 0, 0, "", 4, 1, 2⟩ 3).2 (by decide)).1

end Weblate
